import Mathlib

/-!
Verification of the VIX-style index pipeline in scr/calc_func.py.

Shallow embedding conventions:
* option prices, strikes, maturities and rates are modelled as rationals
  (the source works on decimal float data);
* values that the source obtains through `np.exp` / `np.sqrt` live in `ℝ`;
* pandas raises (`KeyError`, `IndexError`, `ValueError`) are modelled by
  `Except` / `Option` results;
* `YEARS = 365` as in the source.
-/

namespace VixCalc

/-- Contract type column: the source distinguishes the strings call and put. -/
inductive ContractType where
  | call
  | put
deriving DecidableEq

/-- One row of the raw option table fed to prepare_data2calc:
date, close, contract_type, exercise_price, maturity. -/
structure RawQuote where
  date : Nat
  close : ℚ
  contractType : ContractType
  exercisePrice : ℚ
  maturity : ℚ
deriving DecidableEq

/-- Embedding of _get_near_or_next_options: the pandas code raises
IndexError when np.sort(unique maturities)[n] is out of bounds. -/
inductive SelErr where
  | indexError
deriving DecidableEq

/-- Quotes surviving the maturity filter df[maturity >= filter_num / YEARS]. -/
def survivors (df : List RawQuote) (filterNum : ℚ) : List RawQuote :=
  df.filter (fun q => filterNum / 365 ≤ q.maturity)

/-- np.sort(df[maturity].unique()): the distinct surviving maturities in
ascending order. -/
def sortedMaturities (df : List RawQuote) : List ℚ :=
  List.insertionSort (· ≤ ·) (df.map (fun q => q.maturity)).dedup

/-- Embedding of _get_near_or_next_options (calc_func.py lines 20-39):
keep quotes with maturity at least filter_num / 365, then keep those whose
maturity is at most the n-th smallest distinct surviving maturity; indexing
past the end of the sorted distinct maturities raises. -/
def get_near_or_next_options (df : List RawQuote) (n : Nat) (filterNum : ℚ) :
    Except SelErr (List RawQuote) :=
  let df1 := survivors df filterNum
  let mats := sortedMaturities df1
  match mats.get? n with
  | some m => Except.ok (df1.filter (fun q => q.maturity ≤ m))
  | none => Except.error SelErr.indexError

/-- Errors of _get_free_rate (calc_func.py lines 190-219): the guarded
near-term lookup re-raises KeyError with the maturities printed as context;
the unguarded next-term lookup in the return line raises a bare KeyError. -/
inductive RateError where
  | missingRate (nearTerm nextTerm : ℚ)
  | keyError
deriving DecidableEq

/-- Python round on the idealized rational value: round half to even. -/
def pyRound (q : ℚ) : ℤ :=
  let f := ⌊q⌋
  let frac := q - f
  if frac < 1 / 2 then f
  else if 1 / 2 < frac then f + 1
  else if f % 2 = 0 then f else f + 1

/-- shibor_ser.loc lookup: one day's curve row keyed by integer day-count. -/
def lookupRate (row : List (ℤ × ℚ)) (d : ℤ) : Option ℚ :=
  (row.find? (fun p => p.1 = d)).map (fun p => p.2)

/-- Embedding of _get_free_rate (calc_func.py lines 190-219):
near day-count = max(round(near_term * YEARS), 1), next day-count =
round(next_tern * YEARS); the near lookup is wrapped in try/except and
re-raised with the maturities, the next lookup happens bare in the return. -/
def get_free_rate (row : List (ℤ × ℚ)) (nearTerm nextTern : ℚ) :
    Except RateError (ℚ × ℚ) :=
  let nearDays := max (pyRound (nearTerm * 365)) 1
  let nextDays := pyRound (nextTern * 365)
  match lookupRate row nearDays with
  | none => Except.error (RateError.missingRate nearTerm nextTern)
  | some r1 =>
    match lookupRate row nextDays with
    | none => Except.error RateError.keyError
    | some r2 => Except.ok (r1, r2)

/-- One row of the strike matrix produced by _build_strike_matrix:
exercise_price index, call and put close prices, diff = call - put. -/
structure StrikeRow where
  strike : ℚ
  call : ℚ
  put : ℚ
  diff : ℚ
deriving DecidableEq

/-- The strike column of a matrix. -/
def strikesOf (m : List StrikeRow) : List ℚ :=
  m.map (fun r => r.strike)

/-- Strike matrices are indexed by exercise_price sorted strictly ascending
(pandas pivot_table sorts its unique index). -/
abbrev SortedMatrix (m : List StrikeRow) : Prop :=
  (strikesOf m).Pairwise (· < ·)

/-- pandas mean aggregation over a group of close prices (pivot_table
default aggfunc); empty groups give NaN, dropped later by dropna. -/
def meanQ (l : List ℚ) : Option ℚ :=
  match l with
  | [] => none
  | _ => some (l.sum / l.length)

/-- Embedding of _build_strike_matrix (calc_func.py lines 42-69) composed
with the .dropna() applied at its only call site (line 327): pivot close by
exercise_price and contract_type with mean aggregation, keep only strikes
with both legs present, add the diff column. -/
def build_strike_matrix (df : List RawQuote) : List StrikeRow :=
  (List.insertionSort (· ≤ ·) (df.map (fun q => q.exercisePrice)).dedup).filterMap
    (fun k =>
      let calls := (df.filter
        (fun q => q.exercisePrice = k ∧ q.contractType = ContractType.call)).map
        (fun q => q.close)
      let puts := (df.filter
        (fun q => q.exercisePrice = k ∧ q.contractType = ContractType.put)).map
        (fun q => q.close)
      match meanQ calls, meanQ puts with
      | some c, some p => some ⟨k, c, p, c - p⟩
      | _, _ => none)

/-- pandas Series.idxmin on a column given by f: the first row attaining
the minimum of f, none on an empty frame (idxmin raises there). -/
def firstMinBy (f : StrikeRow → ℚ) : List StrikeRow → Option StrikeRow
  | [] => none
  | r :: rs =>
    match firstMinBy f rs with
    | none => some r
    | some m => if f r ≤ f m then some r else some m

/-- Embedding of _get_min_strike_diff (calc_func.py lines 72-95): the row
whose diff has minimal absolute value, first row on ties (idxmin). -/
def get_min_strike_diff (m : List StrikeRow) : Option StrikeRow :=
  firstMinBy (fun r => |r.diff|) m

/-- Embedding of calc_delta_k_table (calc_func.py lines 98-128) on the
index of the series it receives: first entry k1 - k0, interior entries
half of k(i+1) - k(i-1), last entry k(n-1) - k(n-2).  For fewer than two
strikes the source raises IndexError at line 124 (exercise_price[1] on a
short array), modelled by none; with two or more entries every index read
below is in bounds, so the getD defaults are never taken. -/
def calc_delta_k_table (ks : List ℚ) : Option (List ℚ) :=
  if ks.length < 2 then none
  else some ((List.range ks.length).map (fun i =>
    if i = 0 then ks.getD 1 0 - ks.getD 0 0
    else if i = ks.length - 1 then ks.getD i 0 - ks.getD (i - 1) 0
    else (ks.getD (i + 1) 0 - ks.getD (i - 1) 0) / 2))

/-- Sort a key-value list by key (pandas sort_index). -/
def sortPairs (l : List (ℚ × ℚ)) : List (ℚ × ℚ) :=
  List.insertionSort (fun a b => a.1 ≤ b.1) l

/-- Embedding of _get_median_price_table (calc_func.py lines 131-187) for
a rational forward price F.  K_0 = idxmin of the signed diff column over
rows with strike < F; when that selection is empty (ValueError branch)
K_0 = F and the table holds only calls above F.  Otherwise puts below K_0,
the call/put average at K_0 and calls above K_0, sorted by strike. -/
def get_median_price_table (m : List StrikeRow) (F : ℚ) :
    List (ℚ × ℚ) × ℚ :=
  match firstMinBy (fun r => r.diff) (m.filter (fun r => r.strike < F)) with
  | some k0row =>
    let K0 := k0row.strike
    let putSer := (m.filter (fun r => r.strike < K0)).map (fun r => (r.strike, r.put))
    let callSer := (m.filter (fun r => K0 < r.strike)).map (fun r => (r.strike, r.call))
    let median := (k0row.call + k0row.put) * (1 / 2)
    (sortPairs ((putSer ++ [(K0, median)]) ++ callSer), K0)
  | none =>
    let callSer := (m.filter (fun r => F < r.strike)).map (fun r => (r.strike, r.call))
    (sortPairs callSer, F)

/-- Embedding of calc_F (calc_func.py lines 222-243):
F = K + exp(R * T) * (C - P). -/
noncomputable def calc_F (K R T C P : ℚ) : ℝ :=
  (K : ℝ) + Real.exp ((R : ℝ) * (T : ℝ)) * ((C : ℝ) - (P : ℝ))

/-- Pointwise rational-to-real cast of a list. -/
def castList (l : List ℚ) : List ℝ :=
  l.map (fun x : ℚ => (x : ℝ))

/-- Embedding of calc_sigma (calc_func.py lines 246-263):
(2 / T) * sum(delta_K / K^2 * exp(R * T) * Q_K) - (1 / T) * (F / K_0 - 1)^2. -/
noncomputable def calc_sigma (K0 : ℝ) (K deltaK Q : List ℝ) (F R T : ℝ) : ℝ :=
  (2 / T) * (((K.zip deltaK).zip Q).map
      (fun p => p.1.2 / p.1.1 ^ 2 * Real.exp (R * T) * p.2)).sum
    - (1 / T) * (F / K0 - 1) ^ 2

/-- Embedding of calc_weight (calc_func.py lines 285-297):
(t2 - 30 / YEARS) / (t2 - t1). -/
def calc_weight (t1 t2 : ℚ) : ℚ :=
  (t2 - 30 / 365) / (t2 - t1)

/-- Embedding of calc_vix (calc_func.py lines 266-282):
sqrt((T1 * sigma1 * w + T2 * sigma2 * (1 - w)) * (YEARS / 30)) with
w = calc_weight T1 T2. -/
noncomputable def calc_vix (nearSigma nextSigma : ℝ) (nearTerm nextTerm : ℚ) : ℝ :=
  let w : ℚ := calc_weight nearTerm nextTerm
  Real.sqrt (((nearTerm : ℝ) * nearSigma * (w : ℝ) +
    (nextTerm : ℝ) * nextSigma * (1 - (w : ℝ))) * (365 / 30))

section
open Classical

/-- _get_median_price_table again, at the real-valued forward price the
pipeline actually passes (calc_F returns a float); keys and prices stay
rational, only the comparisons against F and the degenerate K_0 = F value
are real. -/
noncomputable def get_median_price_tableR (m : List StrikeRow) (F : ℝ) :
    List (ℚ × ℚ) × ℝ :=
  match firstMinBy (fun r => r.diff)
      (m.filter (fun r => decide ((r.strike : ℝ) < F))) with
  | some k0row =>
    let K0 := k0row.strike
    let putSer := (m.filter (fun r => r.strike < K0)).map (fun r => (r.strike, r.put))
    let callSer := (m.filter (fun r => K0 < r.strike)).map (fun r => (r.strike, r.call))
    let median := (k0row.call + k0row.put) * (1 / 2)
    (sortPairs ((putSer ++ [(K0, median)]) ++ callSer), (K0 : ℝ))
  | none =>
    let callSer := (m.filter (fun r => decide (F < (r.strike : ℝ)))).map
      (fun r => (r.strike, r.call))
    (sortPairs callSer, F)

end

/-- One row of the enriched quote table consumed by _get_sigma and
get_daily_vix (columns of the table at calc_func.py lines 306-310). -/
structure Quote where
  date : Nat
  close : ℚ
  contractType : ContractType
  exercisePrice : ℚ
  maturity : ℚ
  nearMaturity : ℚ
  nextMaturity : ℚ
  nearRate : ℚ
  nextRate : ℚ
deriving DecidableEq

/-- The validated method argument of _get_sigma ("near" or "next"; other
strings are rejected up front at calc_func.py lines 318-324). -/
inductive Method where
  | near
  | next
deriving DecidableEq

/-- Drop the enrichment columns: the underlying raw quote row. -/
def Quote.toRaw (q : Quote) : RawQuote :=
  ⟨q.date, q.close, q.contractType, q.exercisePrice, q.maturity⟩

/-- The dictionary returned by _get_sigma (calc_func.py lines 349-358). -/
structure SigmaResult where
  strikeMatrix : List StrikeRow
  medianTable : List (ℚ × ℚ)
  deltaK : List ℚ
  F : ℝ
  K0 : ℝ
  term : ℚ
  termRate : ℚ
  sigma : ℝ

/-- Embedding of _get_sigma (calc_func.py lines 300-358): build the
dropna-ed strike matrix, take the min |diff| row, read term and rate from
the first row of df, compute F, the median table with K_0, delta_k and
sigma.  none models the pandas raises on an empty matrix (idxmin), an
empty frame (iloc[0]) and a median table of fewer than two strikes
(IndexError inside calc_delta_k_table). -/
noncomputable def get_sigma (df : List Quote) (method : Method) :
    Option SigmaResult :=
  let matrix := build_strike_matrix (df.map Quote.toRaw)
  match df, get_min_strike_diff matrix with
  | q0 :: _, some strikeRow =>
    let term := match method with
      | Method.near => q0.nearMaturity
      | Method.next => q0.nextMaturity
    let termRate := match method with
      | Method.near => q0.nearRate
      | Method.next => q0.nextRate
    let F := calc_F strikeRow.strike termRate term strikeRow.call strikeRow.put
    let mt := get_median_price_tableR matrix F
    match calc_delta_k_table (mt.1.map (fun p => p.1)) with
    | none => none
    | some deltaK =>
      let sigma := calc_sigma mt.2 (castList (mt.1.map (fun p => p.1)))
        (castList deltaK) (castList (mt.1.map (fun p => p.2)))
        F (termRate : ℝ) (term : ℝ)
      some ⟨matrix, mt.1, deltaK, F, mt.2, term, termRate, sigma⟩
  | _, _ => none

/-- A near/next keyed pair (the dictionaries built in get_daily_vix). -/
structure NearNext (α : Type) where
  near : α
  next : α

/-- The namedtuple Variable returned by get_daily_vix
(calc_func.py lines 410-413). -/
structure VixResult where
  strike_matrix : NearNext (List StrikeRow)
  F : NearNext ℝ
  K : NearNext ℝ
  median_table : NearNext (List (ℚ × ℚ))
  delta_k : NearNext (List ℚ)
  sigma : NearNext ℝ
  rate : NearNext ℚ
  term : NearNext ℚ
  vix : ℝ

/-- Embedding of get_daily_vix (calc_func.py lines 367-463): split the day
table into the rows at the near and next maturities, run _get_sigma on
each, blend the vix, and fill the intermediate dictionaries exactly as the
source does - every next entry is read from near_sigma_variable. -/
noncomputable def get_daily_vix (df : List Quote) : Option VixResult :=
  let nearDf := df.filter (fun q => q.maturity = q.nearMaturity)
  let nextDf := df.filter (fun q => q.maturity = q.nextMaturity)
  match get_sigma nearDf Method.near, get_sigma nextDf Method.next with
  | some nearV, some nextV =>
    some
      { strike_matrix := ⟨nearV.strikeMatrix, nearV.strikeMatrix⟩
        F := ⟨nearV.F, nearV.F⟩
        K := ⟨nearV.K0, nearV.K0⟩
        median_table := ⟨nearV.medianTable, nearV.medianTable⟩
        delta_k := ⟨nearV.deltaK, nearV.deltaK⟩
        sigma := ⟨nearV.sigma, nearV.sigma⟩
        rate := ⟨nearV.termRate, nearV.termRate⟩
        term := ⟨nearV.term, nearV.term⟩
        vix := calc_vix nearV.sigma nextV.sigma nearV.term nextV.term }
  | _, _ => none

/-- Errors aborting prepare_data2calc: a selector IndexError escaping
groupby.apply, a missing shibor row for a date (.loc), a rate error. -/
inductive PrepError where
  | selector (e : SelErr)
  | missingDate
  | rate (e : RateError)
deriving DecidableEq

/-- Map a fallible function over a list, stopping at the first error, as a
pandas groupby.apply propagates the first raise. -/
def mapExcept (f : α → Except ε β) : List α → Except ε (List β)
  | [] => Except.ok []
  | a :: as =>
    match f a with
    | Except.error e => Except.error e
    | Except.ok b =>
      match mapExcept f as with
      | Except.error e => Except.error e
      | Except.ok bs => Except.ok (b :: bs)

/-- np.min of a list of rationals (nonempty at every use site). -/
def listMin : List ℚ → ℚ
  | [] => 0
  | x :: xs => xs.foldl min x

/-- np.max of a list of rationals (nonempty at every use site). -/
def listMax : List ℚ → ℚ
  | [] => 0
  | x :: xs => xs.foldl max x

/-- The distinct trading dates of the option table, in the ascending order
pandas groupby uses. -/
def datesOf (optData : List RawQuote) : List Nat :=
  List.insertionSort (· ≤ ·) (optData.map (fun q => q.date)).dedup

/-- shibor_data.loc[date]: the curve row of one date. -/
def lookupShiborRow (shibor : List (Nat × List (ℤ × ℚ))) (d : Nat) :
    Option (List (ℤ × ℚ)) :=
  (shibor.find? (fun p => p.1 = d)).map (fun p => p.2)

/-- Embedding of prepare_data2calc (calc_func.py lines 466-531): per date,
run the term selector with n = 1 and filter_num = 7; per date, take the
unique maturities of the selection, fetch the shibor row and resolve the
rate pair; emit near_maturity = min, next_maturity = max of the maturities
and near_rate = min, next_rate = max of the resolved rate pair; finally
join the four columns back onto every selected quote row of the date. -/
def prepare_data2calc (optData : List RawQuote)
    (shibor : List (Nat × List (ℤ × ℚ))) : Except PrepError (List Quote) :=
  match mapExcept (fun d =>
      match get_near_or_next_options (optData.filter (fun q => q.date = d)) 1 7 with
      | Except.ok r => Except.ok (d, r)
      | Except.error e => Except.error (PrepError.selector e))
      (datesOf optData) with
  | Except.error e => Except.error e
  | Except.ok groups =>
    match mapExcept (fun g =>
        let mats := (g.2.map (fun q => q.maturity)).dedup
        match lookupShiborRow shibor g.1 with
        | none => Except.error PrepError.missingDate
        | some row =>
          match get_free_rate row (listMin mats) (listMax mats) with
          | Except.error e => Except.error (PrepError.rate e)
          | Except.ok rr =>
            Except.ok (g.2, listMin mats, listMax mats,
              min rr.1 rr.2, max rr.1 rr.2)) groups with
    | Except.error e => Except.error e
    | Except.ok cols =>
      Except.ok ((cols.map (fun c => c.1.map (fun q =>
        (⟨q.date, q.close, q.contractType, q.exercisePrice, q.maturity,
          c.2.1, c.2.2.1, c.2.2.2.1, c.2.2.2.2⟩ : Quote)))).flatten)

/-! ## Helper lemmas -/

lemma firstMinBy_eq_none {f : StrikeRow → ℚ} {l : List StrikeRow}
    (h : firstMinBy f l = none) : l = [] := by
  cases l with
  | nil => rfl
  | cons a as =>
    simp only [firstMinBy] at h
    cases hr : firstMinBy f as with
    | none => rw [hr] at h; exact absurd h (by simp)
    | some m => rw [hr] at h; by_cases hc : f a ≤ f m <;> simp [hc] at h

lemma firstMinBy_mem {f : StrikeRow → ℚ} :
    ∀ {l : List StrikeRow} {r : StrikeRow}, firstMinBy f l = some r → r ∈ l := by
  intro l
  induction l with
  | nil => intro r h; simp [firstMinBy] at h
  | cons a as ih =>
    intro r h
    simp only [firstMinBy] at h
    cases hr : firstMinBy f as with
    | none =>
      rw [hr] at h
      simp only [Option.some.injEq] at h
      simp [← h]
    | some m =>
      rw [hr] at h
      by_cases hc : f a ≤ f m
      · simp only [if_pos hc, Option.some.injEq] at h
        simp [← h]
      · simp only [if_neg hc, Option.some.injEq] at h
        exact List.mem_cons_of_mem a (h ▸ ih hr)

lemma firstMinBy_min {f : StrikeRow → ℚ} :
    ∀ {l : List StrikeRow} {r : StrikeRow}, firstMinBy f l = some r →
      ∀ s ∈ l, f r ≤ f s := by
  intro l
  induction l with
  | nil => intro r h; simp [firstMinBy] at h
  | cons a as ih =>
    intro r h
    simp only [firstMinBy] at h
    cases hr : firstMinBy f as with
    | none =>
      rw [hr] at h
      simp only [Option.some.injEq] at h
      have has : as = [] := firstMinBy_eq_none hr
      subst has
      intro s hs
      simp only [List.mem_singleton] at hs
      simp [← h, hs]
    | some m =>
      rw [hr] at h
      by_cases hc : f a ≤ f m
      · simp only [if_pos hc, Option.some.injEq] at h
        subst h
        intro s hs
        rcases List.mem_cons.mp hs with h1 | h2
        · simp [h1]
        · exact le_trans hc (ih hr s h2)
      · simp only [if_neg hc, Option.some.injEq] at h
        subst h
        intro s hs
        rcases List.mem_cons.mp hs with h1 | h2
        · exact h1 ▸ le_of_lt (lt_of_not_le hc)
        · exact ih hr s h2

lemma firstMinBy_tiebreak {f : StrikeRow → ℚ} :
    ∀ {l : List StrikeRow} {r : StrikeRow},
      (l.map (fun x => x.strike)).Pairwise (· < ·) →
      firstMinBy f l = some r → ∀ s ∈ l, f s = f r → r.strike ≤ s.strike := by
  intro l
  induction l with
  | nil => intro r _ h; simp [firstMinBy] at h
  | cons a as ih =>
    intro r hs h
    have hlt : ∀ s ∈ as, a.strike < s.strike := by
      intro s hmem
      have := (List.pairwise_cons.mp hs).1
      exact this s.strike (List.mem_map_of_mem (fun x => x.strike) hmem)
    have hs2 : (as.map (fun x => x.strike)).Pairwise (· < ·) :=
      (List.pairwise_cons.mp hs).2
    simp only [firstMinBy] at h
    cases hr : firstMinBy f as with
    | none =>
      rw [hr] at h
      simp only [Option.some.injEq] at h
      have has : as = [] := firstMinBy_eq_none hr
      subst has
      intro s hmem _
      simp only [List.mem_singleton] at hmem
      simp [← h, hmem]
    | some m =>
      rw [hr] at h
      by_cases hc : f a ≤ f m
      · simp only [if_pos hc, Option.some.injEq] at h
        subst h
        intro s hmem _
        rcases List.mem_cons.mp hmem with h1 | h2
        · simp [h1]
        · exact le_of_lt (hlt s h2)
      · simp only [if_neg hc, Option.some.injEq] at h
        subst h
        intro s hmem heq
        rcases List.mem_cons.mp hmem with h1 | h2
        · exfalso
          have hma : f m < f a := lt_of_not_le hc
          rw [h1] at heq
          exact absurd heq (ne_of_gt hma)
        · exact ih hs2 hr s h2 heq

/-! ## Claim C2: the at-the-money strike K0 -/

/-- Strike matrix refuting C2 as stated: two strikes below F = 3, the
returned K0 = 1 minimizes the signed diff, yet strike 2 has the strictly
smaller absolute call/put difference. -/
def c2Matrix : List StrikeRow := [⟨1, 1/10, 6/10, -1/2⟩, ⟨2, 2/10, 1/10, 1/10⟩]

/-- Claim C2 counterexample: on c2Matrix with F = 3 the code returns
K0 = 1, although the strike 2 lies below F and has |call - put| = 1/10,
strictly smaller than |call - put| = 1/2 at the returned strike 1; so K0
does not minimize |diff| = |call - put| among strikes below F. -/
theorem c2_counterexample :
    (get_median_price_table c2Matrix 3).2 = 1 ∧
    (⟨2, 2/10, 1/10, 1/10⟩ : StrikeRow) ∈ c2Matrix ∧ (2 : ℚ) < 3 ∧
    |(2 : ℚ)/10 - 1/10| < |(1 : ℚ)/10 - 6/10| ∧ (1 : ℚ) ≠ 2 := by
  refine ⟨?_, by simp [c2Matrix], by norm_num, ?_, by norm_num⟩
  · norm_num [get_median_price_table, c2Matrix, firstMinBy]
  · rw [show ((2 : ℚ)/10 - 1/10) = 1/10 by norm_num,
      show ((1 : ℚ)/10 - 6/10) = -(1/2) by norm_num, abs_neg,
      abs_of_pos (show (0:ℚ) < 1/10 by norm_num),
      abs_of_pos (show (0:ℚ) < 1/2 by norm_num)]
    norm_num

/-- The corrected behaviour of the K0 selection in _get_median_price_table:
among the rows with strike strictly below F, K0 is the strike of a row with
minimal signed diff (the row of smallest strike on ties); if no strike lies
below F then K0 = F. -/
def C2Spec (m : List StrikeRow) (F : ℚ) : Prop :=
  (m.filter (fun r => r.strike < F) = [] → (get_median_price_table m F).2 = F) ∧
  (m.filter (fun r => r.strike < F) ≠ [] →
    ∃ r, r ∈ m ∧ r.strike < F ∧ (get_median_price_table m F).2 = r.strike ∧
      (∀ s ∈ m, s.strike < F → r.diff ≤ s.diff) ∧
      (∀ s ∈ m, s.strike < F → s.diff = r.diff → r.strike ≤ s.strike))

/-- Claim C2 (amended): for every sorted strike matrix and forward price F,
K0 is the strike minimizing the signed diff = call - put (not its absolute
value) among strikes strictly below F, the smallest such strike on ties
(not the largest), and K0 = F when no strike lies below F. -/
theorem c2_amended (m : List StrikeRow) (F : ℚ) (hm : SortedMatrix m) :
    C2Spec m F := by
  constructor
  · intro he
    simp only [get_median_price_table, he, firstMinBy]
  · intro hne
    cases hfm : firstMinBy (fun r => r.diff) (m.filter (fun r => r.strike < F)) with
    | none => exact absurd (firstMinBy_eq_none hfm) hne
    | some k0row =>
      have hmem : k0row ∈ m.filter (fun r => r.strike < F) := firstMinBy_mem hfm
      have hmem2 : k0row ∈ m := List.mem_of_mem_filter hmem
      have hlt : k0row.strike < F := by
        have := List.of_mem_filter hmem
        simpa using this
      have hsorted : ((m.filter (fun r => r.strike < F)).map
          (fun x => x.strike)).Pairwise (· < ·) := by
        have hsub : List.Sublist
            ((m.filter (fun r => r.strike < F)).map (fun x => x.strike))
            (m.map (fun x => x.strike)) :=
          (List.filter_sublist m).map (fun x => x.strike)
        exact List.Pairwise.sublist hsub hm
      refine ⟨k0row, hmem2, hlt, ?_, ?_, ?_⟩
      · simp only [get_median_price_table, hfm]
      · intro s hs hsF
        refine firstMinBy_min hfm s ?_
        simp only [List.mem_filter]
        exact ⟨hs, by simpa using hsF⟩
      · intro s hs hsF heq
        refine firstMinBy_tiebreak hsorted hfm s ?_ heq
        simp only [List.mem_filter]
        exact ⟨hs, by simpa using hsF⟩

/-- Witness matrix for c2_amended: integer data, both strikes below F = 3. -/
def c2wMatrix : List StrikeRow := [⟨1, 5, 2, 3⟩, ⟨2, 4, 3, 1⟩]

/-- Witness for c2_amended at a concrete sorted matrix and F = 3. -/
theorem c2_amended_witness : SortedMatrix c2wMatrix ∧ C2Spec c2wMatrix 3 :=
  ⟨by decide, c2_amended c2wMatrix 3 (by decide)⟩

/-! ## Claim C3: the term selector -/

/-- A quote at the smallest qualifying maturity 10/365. -/
def c3q1 : RawQuote := ⟨1, 11/100, ContractType.call, 23/10, 10/365⟩

/-- A quote at the second-smallest qualifying maturity 20/365. -/
def c3q2 : RawQuote := ⟨1, 9/100, ContractType.put, 23/10, 20/365⟩

/-- Claim C3 counterexample: with n = 1 the selector keeps the quote at the
smallest maturity 10/365 as well, so the result is not exactly the quotes
whose maturity equals the second-smallest distinct maturity 20/365. -/
theorem c3_counterexample :
    get_near_or_next_options [c3q1, c3q2] 1 7 = Except.ok [c3q1, c3q2] ∧
    c3q1.maturity = 10/365 ∧ c3q2.maturity = 20/365 ∧ (10 : ℚ)/365 ≠ 20/365 := by
  refine ⟨?_, by norm_num [c3q1], by norm_num [c3q2], by norm_num⟩
  norm_num [get_near_or_next_options, survivors, sortedMaturities, c3q1, c3q2,
    List.dedup_cons_of_not_mem, List.filter]

/-- The corrected behaviour of _get_near_or_next_options on success: the
sorted distinct surviving maturities are strictly increasing and enumerate
exactly the maturities surviving the filter, and the result keeps every
surviving quote whose maturity is at most the n-th entry of that list
(so n = 1 keeps the two smallest maturities, not only the second). -/
def C3Spec (df : List RawQuote) (n : Nat) (fn : ℚ) (r : List RawQuote) : Prop :=
  (sortedMaturities (survivors df fn)).Pairwise (· < ·) ∧
  (∀ x : ℚ, x ∈ sortedMaturities (survivors df fn) ↔
    ∃ q ∈ survivors df fn, q.maturity = x) ∧
  ∃ m : ℚ, (sortedMaturities (survivors df fn)).get? n = some m ∧
    r = (survivors df fn).filter (fun q => q.maturity ≤ m)

/-- Claim C3 (amended): the selector removes quotes with maturity below
filter_num / 365 and then returns the surviving quotes whose maturity is
less than or equal to the n-th smallest distinct surviving maturity -
not only those equal to it. -/
theorem c3_amended (df : List RawQuote) (n : Nat) (fn : ℚ) (r : List RawQuote)
    (h : get_near_or_next_options df n fn = Except.ok r) : C3Spec df n fn r := by
  have hperm : List.Perm (sortedMaturities (survivors df fn))
      ((survivors df fn).map (fun q => q.maturity)).dedup :=
    List.perm_insertionSort (· ≤ ·) _
  have hsorted : (sortedMaturities (survivors df fn)).Sorted (· ≤ ·) :=
    List.sorted_insertionSort (· ≤ ·) _
  have hnodup : (sortedMaturities (survivors df fn)).Nodup :=
    hperm.nodup_iff.mpr (List.nodup_dedup _)
  refine ⟨?_, ?_, ?_⟩
  · exact (hsorted.and hnodup).imp (fun hx => lt_of_le_of_ne hx.1 hx.2)
  · intro x
    rw [hperm.mem_iff, List.mem_dedup, List.mem_map]
  · simp only [get_near_or_next_options] at h
    cases hg : (sortedMaturities (survivors df fn)).get? n with
    | none => rw [hg] at h; exact absurd h (by simp)
    | some m =>
      rw [hg] at h
      simp only [Except.ok.injEq] at h
      exact ⟨m, rfl, h.symm⟩

/-- Witness input for c3_amended: two integer maturities, filter_num 0. -/
def c3wDf : List RawQuote :=
  [⟨1, 5, ContractType.call, 2, 1⟩, ⟨1, 7, ContractType.put, 2, 2⟩]

/-- Witness for c3_amended at a concrete quote list with n = 1. -/
theorem c3_amended_witness :
    get_near_or_next_options c3wDf 1 0 = Except.ok c3wDf ∧ C3Spec c3wDf 1 0 c3wDf := by
  have h : get_near_or_next_options c3wDf 1 0 = Except.ok c3wDf := by
    simp [get_near_or_next_options, survivors, sortedMaturities, c3wDf,
      List.dedup, List.filter, List.get?]
  exact ⟨h, c3_amended c3wDf 1 0 c3wDf h⟩

/-! ## Claim C6: behaviour with too few qualifying maturities -/

/-- Claim C6 counterexample: a one-day quote set whose only maturity 3/365
falls below the 7/365 filter makes the selector raise (an IndexError from
indexing the empty sorted maturity array), not return an empty result; the
second conjunct records that this outcome is not an ok-result at all. -/
theorem c6_counterexample :
    get_near_or_next_options
      [(⟨1, 1/10, ContractType.call, 23/10, 3/365⟩ : RawQuote)] 1 7 =
        Except.error SelErr.indexError ∧
    (∀ xs : List RawQuote,
      (Except.error SelErr.indexError : Except SelErr (List RawQuote)) ≠ Except.ok xs) := by
  constructor
  · norm_num [get_near_or_next_options, survivors, sortedMaturities, List.filter]
  · intro xs
    simp

lemma mapExcept_error {α β ε : Type} (f : α → Except ε β) :
    ∀ (l : List α), (∃ a ∈ l, ∃ e0, f a = Except.error e0) →
      ∃ e, mapExcept f l = Except.error e := by
  intro l
  induction l with
  | nil => rintro ⟨a, ha, _⟩; exact absurd ha (List.not_mem_nil a)
  | cons x xs ih =>
    rintro ⟨a, ha, e0, he0⟩
    cases hfx : f x with
    | error e => exact ⟨e, by simp [mapExcept, hfx]⟩
    | ok b =>
      rcases List.mem_cons.mp ha with h1 | h2
      · rw [h1] at he0; rw [he0] at hfx; exact absurd hfx (by simp)
      · rcases ih ⟨a, h2, e0, he0⟩ with ⟨e, he⟩
        exact ⟨e, by simp [mapExcept, hfx, he]⟩

/-- The corrected behaviour for days with too few qualifying maturities:
the selector errors whenever at most n distinct maturities survive the
filter, and one such day among the batch makes the whole batch preparer
return an error (no per-day skipping). -/
def C6Spec : Prop :=
  (∀ (df : List RawQuote) (n : Nat) (fn : ℚ),
    ((survivors df fn).map (fun q => q.maturity)).dedup.length ≤ n →
    get_near_or_next_options df n fn = Except.error SelErr.indexError) ∧
  (∀ (optData : List RawQuote) (shibor : List (Nat × List (ℤ × ℚ))),
    (∃ d ∈ datesOf optData,
      get_near_or_next_options (optData.filter (fun q => q.date = d)) 1 7 =
        Except.error SelErr.indexError) →
    ∃ e, prepare_data2calc optData shibor = Except.error e)

/-- Claim C6 (amended): when no maturity (or, with n = 1, fewer than two
distinct maturities) survives the filter, the term selector raises an index
error instead of returning an empty result, and in prepare_data2calc such a
day aborts the whole batch instead of being skipped. -/
theorem c6_amended : C6Spec := by
  constructor
  · intro df n fn hlen
    have hplen : (sortedMaturities (survivors df fn)).length =
        ((survivors df fn).map (fun q => q.maturity)).dedup.length :=
      (List.perm_insertionSort (· ≤ ·) _).length_eq
    have hget : (sortedMaturities (survivors df fn)).get? n = none :=
      List.get?_eq_none.mpr (hplen ▸ hlen)
    simp only [get_near_or_next_options, hget]
  · intro optData shibor ⟨d, hd, herr⟩
    have hsel : ∃ e, mapExcept (fun d =>
        match get_near_or_next_options (optData.filter (fun q => q.date = d)) 1 7 with
        | Except.ok r => Except.ok (d, r)
        | Except.error e => Except.error (PrepError.selector e))
        (datesOf optData) = Except.error e := by
      apply mapExcept_error
      exact ⟨d, hd, PrepError.selector SelErr.indexError, by rw [herr]⟩
    rcases hsel with ⟨e, he⟩
    exact ⟨e, by simp only [prepare_data2calc, he]⟩

/-! ## Claim C5: the rate resolver -/

lemma pyRound_eq_floor {q : ℚ} {n : ℤ} (h1 : (n : ℚ) ≤ q) (h2 : q < n + 1/2) :
    pyRound q = n := by
  have hfl : ⌊q⌋ = n := Int.floor_eq_iff.mpr ⟨h1, by linarith⟩
  simp only [pyRound, hfl]
  rw [if_pos (by linarith)]

/-- Claim C5 counterexample: a curve row with an entry at day-count 7 but
none at day-count 15, with near_term = 7/365 and next_term = 15/365, makes
_get_free_rate raise the bare lookup KeyError of the return line - an error
that does not carry the offending maturities - although the curve does lack
an entry at a required day-count. -/
theorem c5_counterexample :
    get_free_rate [((7 : ℤ), 1/20)] (7/365) (15/365) = Except.error RateError.keyError ∧
    (∀ a b : ℚ, RateError.keyError ≠ RateError.missingRate a b) := by
  constructor
  · have h7 : pyRound ((7/365 : ℚ) * 365) = 7 := by
      apply pyRound_eq_floor <;> norm_num
    have h15 : pyRound ((15/365 : ℚ) * 365) = 15 := by
      apply pyRound_eq_floor <;> norm_num
    simp only [get_free_rate, h7, h15]
    norm_num [lookupRate, List.find?]
  · intro a b
    simp

/-- The corrected behaviour of _get_free_rate: day-counts are obtained by
rounding, the near one floored at 1; the call fails if and only if the
curve misses one of the two day-counts, but the error carries the offending
maturities only when the near-term lookup is the one that fails; a missing
next-term entry raises a bare key error without them. -/
def C5Spec (row : List (ℤ × ℚ)) (near next : ℚ) : Prop :=
  1 ≤ max (pyRound (near * 365)) 1 ∧
  ((∃ e, get_free_rate row near next = Except.error e) ↔
    (lookupRate row (max (pyRound (near * 365)) 1) = none ∨
     lookupRate row (pyRound (next * 365)) = none)) ∧
  (lookupRate row (max (pyRound (near * 365)) 1) = none →
    get_free_rate row near next = Except.error (RateError.missingRate near next)) ∧
  (∀ r1, lookupRate row (max (pyRound (near * 365)) 1) = some r1 →
    lookupRate row (pyRound (next * 365)) = none →
    get_free_rate row near next = Except.error RateError.keyError) ∧
  (∀ r1 r2, lookupRate row (max (pyRound (near * 365)) 1) = some r1 →
    lookupRate row (pyRound (next * 365)) = some r2 →
    get_free_rate row near next = Except.ok (r1, r2))

/-- Claim C5 (amended): the resolver rounds each year-fraction to a
day-count (near floored at 1; 0.0192 years gives 7, 0.0411 years gives 15)
and fails if and only if the curve lacks an entry at either day-count, but
the missing-rate error with the maturities in context is raised only for a
missing near-term entry; a missing next-term entry gives a bare key error. -/
theorem c5_amended :
    (∀ (row : List (ℤ × ℚ)) (near next : ℚ), C5Spec row near next) ∧
    max (pyRound ((192/10000 : ℚ) * 365)) 1 = 7 ∧
    pyRound ((411/10000 : ℚ) * 365) = 15 := by
  refine ⟨?_, ?_, ?_⟩
  · intro row near next
    refine ⟨le_max_right _ _, ?_, ?_, ?_, ?_⟩
    · constructor
      · rintro ⟨e, he⟩
        by_contra hc
        push_neg at hc
        rcases Option.ne_none_iff_exists.mp hc.1 with ⟨r1, hr1⟩
        rcases Option.ne_none_iff_exists.mp hc.2 with ⟨r2, hr2⟩
        simp only [get_free_rate, ← hr1, ← hr2] at he
        exact absurd he (by simp)
      · rintro (h | h)
        · exact ⟨RateError.missingRate near next, by simp only [get_free_rate, h]⟩
        · cases hn : lookupRate row (max (pyRound (near * 365)) 1) with
          | none => exact ⟨RateError.missingRate near next, by simp only [get_free_rate, hn]⟩
          | some r1 => exact ⟨RateError.keyError, by simp only [get_free_rate, hn, h]⟩
    · intro h
      simp only [get_free_rate, h]
    · intro r1 h1 h2
      simp only [get_free_rate, h1, h2]
    · intro r1 r2 h1 h2
      simp only [get_free_rate, h1, h2]
  · have h7 : pyRound ((192/10000 : ℚ) * 365) = 7 := by
      apply pyRound_eq_floor <;> norm_num
    rw [h7]
    exact max_eq_left (by norm_num)
  · apply pyRound_eq_floor <;> norm_num

/-! ## Claim C9: the index blender -/

/-- Claim C9: calc_vix computes exactly
sqrt((T1 sigma1 w + T2 sigma2 (1 - w)) (365/30)) with
w = (T2 - 30/365)/(T2 - T1); the weight is not clamped - at T1 = 8/365 and
T2 = 20/365 (the 30-day point not between them) it is negative - and no
factor 100 appears in the result. -/
theorem c9 :
    (∀ (s1 s2 : ℝ) (t1 t2 : ℚ), t1 < t2 →
      calc_vix s1 s2 t1 t2 =
        Real.sqrt (((t1 : ℝ) * s1 * (((t2 : ℝ) - 30/365) / ((t2 : ℝ) - (t1 : ℝ))) +
          (t2 : ℝ) * s2 * (1 - ((t2 : ℝ) - 30/365) / ((t2 : ℝ) - (t1 : ℝ)))) * (365/30))) ∧
    calc_weight (8/365) (20/365) < 0 ∧
    (8 : ℚ)/365 < 20/365 ∧ ¬ ((8 : ℚ)/365 ≤ 30/365 ∧ (30 : ℚ)/365 ≤ 20/365) := by
  refine ⟨?_, by norm_num [calc_weight], by norm_num, by norm_num⟩
  intro s1 s2 t1 t2 _
  simp only [calc_vix, calc_weight]
  congr 1
  push_cast
  ring

/-- Instantiation of c9 at the spec scenario weight: t1 = 8/365 and
t2 = 35/365 give weight (35/365 - 30/365)/(35/365 - 8/365) = 5/27. -/
theorem c9_weight_scenario : calc_weight (8/365) (35/365) = 5/27 := by
  norm_num [calc_weight]

/-! ## Claim C10: the variance estimator -/

lemma c10aux (e : ℝ) : ∀ (K dK Q : List ℚ), dK.length = K.length →
    Q.length = K.length →
    ((((castList K).zip (castList dK)).zip (castList Q)).map
      (fun p => p.1.2 / p.1.1 ^ 2 * e * p.2)).sum =
    ∑ i ∈ Finset.range K.length,
      ((dK.getD i 0 : ℝ) / ((K.getD i 0 : ℝ)) ^ 2 * e * (Q.getD i 0 : ℝ)) := by
  intro K
  induction K with
  | nil =>
    intro dK Q _ _
    simp [castList]
  | cons k ks ih =>
    intro dK Q hdK hQ
    cases dK with
    | nil => simp at hdK
    | cons d ds =>
      cases Q with
      | nil => simp at hQ
      | cons q qs =>
        simp only [List.length_cons, Nat.succ.injEq] at hdK hQ
        simp only [castList, List.map_cons, List.zip_cons_cons, List.sum_cons,
          List.length_cons]
        rw [Finset.sum_range_succ']
        simp only [List.getD_cons_succ, List.getD_cons_zero]
        have ih2 := ih ds qs hdK hQ
        simp only [castList] at ih2
        rw [ih2]
        ring

/-- Claim C10: calc_sigma returns exactly
(2/T) sum_i [dK_i / K_i^2 exp(R T) Q_i] - (1/T)(F/K0 - 1)^2. -/
theorem c10 (K0 R T : ℚ) (K dK Q : List ℚ) (F : ℝ)
    (_hK0 : 0 < K0) (_hT : 0 < T) (_hK : ∀ k ∈ K, k ≠ 0)
    (hdK : dK.length = K.length) (hQ : Q.length = K.length) :
    calc_sigma ((K0 : ℚ) : ℝ) (castList K) (castList dK)
        (castList Q) F ((R : ℚ) : ℝ) ((T : ℚ) : ℝ) =
      (2 / (T : ℝ)) * (∑ i ∈ Finset.range K.length,
        ((dK.getD i 0 : ℝ) / ((K.getD i 0 : ℝ)) ^ 2 *
          Real.exp ((R : ℝ) * (T : ℝ)) * (Q.getD i 0 : ℝ)))
        - (1 / (T : ℝ)) * (F / (K0 : ℝ) - 1) ^ 2 := by
  simp only [calc_sigma]
  rw [c10aux (Real.exp ((R : ℝ) * (T : ℝ))) K dK Q hdK hQ]

/-- Witness for c10 at K0 = 1, T = 1, K = dK = Q = [1], F = 0, R = 0. -/
theorem c10_witness :
    (0 : ℚ) < 1 ∧ (∀ k ∈ [(1 : ℚ)], k ≠ 0) ∧
    calc_sigma (((1 : ℚ) : ℚ) : ℝ)
        (castList [(1 : ℚ)]) (castList [(1 : ℚ)])
        (castList [(1 : ℚ)]) 0 (((0 : ℚ) : ℚ) : ℝ) (((1 : ℚ) : ℚ) : ℝ) =
      (2 / ((1 : ℚ) : ℝ)) * (∑ i ∈ Finset.range [(1 : ℚ)].length,
        (([(1 : ℚ)].getD i 0 : ℝ) / (([(1 : ℚ)].getD i 0 : ℝ)) ^ 2 *
          Real.exp (((0 : ℚ) : ℝ) * ((1 : ℚ) : ℝ)) * ([(1 : ℚ)].getD i 0 : ℝ)))
        - (1 / ((1 : ℚ) : ℝ)) * ((0 : ℝ) / ((1 : ℚ) : ℝ) - 1) ^ 2 :=
  ⟨by decide, by decide,
    c10 1 0 1 [1] [1] [1] 0 (by decide) (by decide) (by decide) rfl rfl⟩

/-! ## Claim C7: the forward price estimator -/

lemma exp_le_inv_one_sub {x : ℝ} (h : x < 1) : Real.exp x ≤ (1 - x)⁻¹ := by
  have h1 : 1 - x ≤ Real.exp (-x) := by
    have := Real.add_one_le_exp (-x)
    linarith
  have h2 : (0 : ℝ) < 1 - x := by linarith
  have h3 : Real.exp x = (Real.exp (-x))⁻¹ := by
    rw [← Real.exp_neg, neg_neg]
  rw [h3]
  exact inv_anti₀ h2 h1

/-- The anchor selection of _get_min_strike_diff together with the put-call
parity forward price of calc_F: the anchor row is in the matrix, its |diff|
is minimal, ties go to the smallest strike, and F is computed from its
strike, call and put. -/
def C7Spec (m : List StrikeRow) (R T : ℚ) : Prop :=
  ∃ r, get_min_strike_diff m = some r ∧ r ∈ m ∧
    (∀ s ∈ m, |r.diff| ≤ |s.diff|) ∧
    (∀ s ∈ m, |s.diff| = |r.diff| → r.strike ≤ s.strike) ∧
    calc_F r.strike R T r.call r.put =
      (r.strike : ℝ) + Real.exp ((R : ℝ) * (T : ℝ)) * ((r.call : ℝ) - (r.put : ℝ))

/-- The strike matrix of the spec scenario for C7. -/
def c7Matrix : List StrikeRow :=
  [⟨23/10, 1225/10000, 969/10000, 256/10000⟩,
   ⟨47/20, 942/10000, 1268/10000, -(326/10000)⟩,
   ⟨12/5, 735/10000, 1542/10000, -(807/10000)⟩]

/-- Claim C7: on every sorted nonempty strike matrix the estimator anchors
at the strike of globally minimal |diff| (first in ascending strike order
on ties) and returns F = strike + exp(R T)(C - P); on the scenario matrix
the anchor is 2.3 and F is within 1/1000 of 2.3256. -/
theorem c7 :
    (∀ (m : List StrikeRow) (R T : ℚ), SortedMatrix m → m ≠ [] → C7Spec m R T) ∧
    (∃ r, get_min_strike_diff c7Matrix = some r ∧ r.strike = 23/10) ∧
    |calc_F (23/10) (3/100) (30/365) (1225/10000) (969/10000) - 23256/10000| <
      1/1000 := by
  refine ⟨?_, ?_, ?_⟩
  · intro m R T hm hne
    cases hfm : get_min_strike_diff m with
    | none => exact absurd (firstMinBy_eq_none hfm) hne
    | some r =>
      refine ⟨r, hfm, firstMinBy_mem hfm, firstMinBy_min hfm, ?_, rfl⟩
      intro s hs heq
      exact firstMinBy_tiebreak hm hfm s hs heq
  · have e1 : |(256 : ℚ)/10000| = 256/10000 := abs_of_nonneg (by norm_num)
    have e2 : |(-(326/10000) : ℚ)| = 326/10000 := by
      rw [abs_neg]
      exact abs_of_nonneg (by norm_num)
    have e3 : |(-(807/10000) : ℚ)| = 807/10000 := by
      rw [abs_neg]
      exact abs_of_nonneg (by norm_num)
    refine ⟨⟨23/10, 1225/10000, 969/10000, 256/10000⟩, ?_, rfl⟩
    norm_num [get_min_strike_diff, c7Matrix, firstMinBy, e1, e2, e3,
      abs_of_nonneg, abs_of_nonpos]
  · have hx : ((3/100 : ℚ) : ℝ) * ((30/365 : ℚ) : ℝ) = 9/3650 := by
      push_cast
      norm_num
    have hlo : (1 : ℝ) + 9/3650 ≤ Real.exp ((9 : ℝ)/3650) := by
      have := Real.add_one_le_exp ((9 : ℝ)/3650)
      linarith
    have hhi : Real.exp ((9 : ℝ)/3650) ≤ 3650/3641 := by
      have h := exp_le_inv_one_sub (show (9 : ℝ)/3650 < 1 by norm_num)
      have : ((1 : ℝ) - 9/3650)⁻¹ = 3650/3641 := by norm_num
      linarith [this ▸ h]
    simp only [calc_F, hx]
    rw [abs_lt]
    constructor
    · push_cast
      nlinarith [hlo]
    · push_cast
      nlinarith [hhi]

/-! ## Claim C8: the mid-quote table partitions the strikes -/

lemma sorted_partition :
    ∀ {m : List StrikeRow}, SortedMatrix m → ∀ {r : StrikeRow}, r ∈ m →
      m = m.filter (fun s => s.strike < r.strike) ++
        r :: m.filter (fun s => r.strike < s.strike) := by
  intro m
  induction m with
  | nil => intro _ r hr; exact absurd hr (List.not_mem_nil r)
  | cons a as ih =>
    intro hm r hr
    have hpc := List.pairwise_cons.mp hm
    have ha : ∀ s ∈ as, a.strike < s.strike := by
      intro s hs
      exact hpc.1 s.strike (List.mem_map_of_mem (fun x => x.strike) hs)
    have htl : SortedMatrix as := hpc.2
    rcases List.mem_cons.mp hr with h1 | h2
    · subst h1
      have hf1 : (r :: as).filter (fun s => s.strike < r.strike) = [] := by
        rw [List.filter_eq_nil_iff]
        intro s hs
        simp only [decide_eq_true_eq]
        rcases List.mem_cons.mp hs with h3 | h4
        · subst h3; exact lt_irrefl _
        · exact not_lt_of_gt (ha s h4)
      have hf2 : (r :: as).filter (fun s => r.strike < s.strike) = as := by
        rw [List.filter_cons_of_neg (by simp)]
        rw [List.filter_eq_self]
        intro s hs
        simp only [decide_eq_true_eq]
        exact ha s hs
      rw [hf1, hf2]
      simp
    · have har : a.strike < r.strike := ha r h2
      rw [List.filter_cons_of_pos (by simp [har]),
        List.filter_cons_of_neg (by simp [not_lt_of_gt har])]
      have := ih htl h2
      rw [List.cons_append]
      exact congrArg (fun l => a :: l) this

/-- The mid-quote table behaviour claimed by C8 for the case of at least
one strike below F: K0 is a strike of the matrix below F, the table keys
are exactly the matrix strikes in order and without repetition, and each
row carries the put below K0, the call/put average at K0, the call above. -/
def C8Spec (m : List StrikeRow) (F : ℚ) : Prop :=
  ∃ k0row, firstMinBy (fun r => r.diff) (m.filter (fun r => r.strike < F)) = some k0row ∧
    (get_median_price_table m F).2 = k0row.strike ∧
    k0row ∈ m ∧ k0row.strike < F ∧
    (get_median_price_table m F).1.map (fun p => p.1) = m.map (fun r => r.strike) ∧
    ((get_median_price_table m F).1.map (fun p => p.1)).Nodup ∧
    ∀ p ∈ (get_median_price_table m F).1,
      (p.1 < k0row.strike → ∃ s ∈ m, s.strike = p.1 ∧ p.2 = s.put) ∧
      (p.1 = k0row.strike → p.2 = (k0row.call + k0row.put) * (1/2)) ∧
      (k0row.strike < p.1 → ∃ s ∈ m, s.strike = p.1 ∧ p.2 = s.call)

/-- Claim C8: for every sorted strike matrix with some strike below F, the
mid-quote table maps strikes below K0 to put prices, K0 to the call/put
average and strikes above K0 to call prices, covering every strike of the
matrix exactly once. -/
theorem c8 (m : List StrikeRow) (F : ℚ) (hm : SortedMatrix m)
    (hex : ∃ r ∈ m, r.strike < F) : C8Spec m F := by
  have hne : m.filter (fun r => r.strike < F) ≠ [] := by
    rcases hex with ⟨r, hr, hrF⟩
    intro hnil
    rw [List.filter_eq_nil_iff] at hnil
    exact hnil r hr (by simp [hrF])
  cases hfm : firstMinBy (fun r => r.diff) (m.filter (fun r => r.strike < F)) with
  | none => exact absurd (firstMinBy_eq_none hfm) hne
  | some k0row =>
    have hmemf : k0row ∈ m.filter (fun r => r.strike < F) := firstMinBy_mem hfm
    have hmem : k0row ∈ m := List.mem_of_mem_filter hmemf
    have hk0F : k0row.strike < F := by
      have := List.of_mem_filter hmemf
      simpa using this
    have hpart := sorted_partition hm hmem
    set K0 := k0row.strike with hK0def
    set putSer := (m.filter (fun r => r.strike < K0)).map (fun r => (r.strike, r.put))
      with hput
    set callSer := (m.filter (fun r => K0 < r.strike)).map (fun r => (r.strike, r.call))
      with hcall
    set median := (k0row.call + k0row.put) * (1 / 2) with hmed
    set pre := (putSer ++ [(K0, median)]) ++ callSer with hpre
    have hkeys : pre.map (fun p => p.1) = m.map (fun r => r.strike) := by
      rw [hpre, hput, hcall]
      simp only [List.map_append, List.map_map, List.map_cons, List.map_nil]
      conv_rhs => rw [hpart]
      simp [Function.comp_def, List.append_assoc]
    have hpairs : pre.Pairwise (fun a b => a.1 ≤ b.1) := by
      have h1 : (pre.map (fun p => p.1)).Pairwise (· < ·) := by
        rw [hkeys]
        exact hm
      have h2 := (List.pairwise_map).mp h1
      exact h2.imp (fun h => le_of_lt h)
    have hsorted : sortPairs pre = pre :=
      List.Sorted.insertionSort_eq hpairs
    have htbl : get_median_price_table m F = (pre, K0) := by
      simp only [get_median_price_table, hfm, hsorted, hpre, hput, hcall, hmed]
    refine ⟨k0row, hfm, by rw [htbl], hmem, hk0F, ?_, ?_, ?_⟩
    · rw [htbl]
      exact hkeys
    · rw [htbl]
      simp only
      rw [hkeys]
      exact (List.Pairwise.imp (fun h => ne_of_lt h) hm)
    · rw [htbl]
      intro p hp
      simp only at hp
      rw [hpre] at hp
      rcases List.mem_append.mp hp with hp1 | hpc
      · rcases List.mem_append.mp hp1 with hpp | hpm
        · rw [hput] at hpp
          rcases List.mem_map.mp hpp with ⟨s, hsmem, hsp⟩
          have hslt : s.strike < K0 := by
            have := List.of_mem_filter hsmem
            simpa using this
          have hsm : s ∈ m := List.mem_of_mem_filter hsmem
          subst hsp
          refine ⟨fun _ => ⟨s, hsm, rfl, rfl⟩, fun he => absurd he (ne_of_lt hslt), ?_⟩
          intro hgt
          exact absurd hgt (not_lt_of_gt hslt)
        · simp only [List.mem_singleton] at hpm
          subst hpm
          refine ⟨fun hlt => absurd hlt (lt_irrefl _), fun _ => hmed ▸ rfl, ?_⟩
          intro hgt
          exact absurd hgt (lt_irrefl _)
      · rw [hcall] at hpc
        rcases List.mem_map.mp hpc with ⟨s, hsmem, hsp⟩
        have hsgt : K0 < s.strike := by
          have := List.of_mem_filter hsmem
          simpa using this
        have hsm : s ∈ m := List.mem_of_mem_filter hsmem
        subst hsp
        refine ⟨?_, ?_, fun _ => ⟨s, hsm, rfl, rfl⟩⟩
        · intro hlt
          exact absurd hlt (not_lt_of_gt hsgt)
        · intro he
          exact absurd he.symm (ne_of_lt hsgt)

/-- Witness matrix for c8: strikes 1, 2, 3 with integer prices. -/
def c8wMatrix : List StrikeRow :=
  [⟨1, 6, 2, 4⟩, ⟨2, 5, 4, 1⟩, ⟨3, 3, 7, -4⟩]

/-- Witness for c8 at the concrete matrix with F = 3. -/
theorem c8_witness : SortedMatrix c8wMatrix ∧
    (∃ r ∈ c8wMatrix, r.strike < 3) ∧ C8Spec c8wMatrix 3 :=
  ⟨by decide, by decide, c8 c8wMatrix 3 (by decide) (by decide)⟩

/-! ## Claim C4: the batch preparer swaps inverted rates -/

/-- One trading day with two qualifying maturities, 1 year and 2 years. -/
def c4Opt : List RawQuote :=
  [⟨1, 11/100, ContractType.call, 23/10, 1⟩,
   ⟨1, 9/100, ContractType.put, 23/10, 2⟩]

/-- An inverted curve row: 5% at 365 days, 3% at 730 days. -/
def c4Row : List (ℤ × ℚ) := [((365 : ℤ), 5/100), ((730 : ℤ), 3/100)]

/-- The curve table holding c4Row for the single trading date. -/
def c4Shibor : List (Nat × List (ℤ × ℚ)) := [(1, c4Row)]

/-- Claim C4 is violated: the rate resolver returns the ordered pair
(near rate 5%, next rate 3%) for this day, yet prepare_data2calc fills the
near_rate column with min(5%, 3%) = 3% and next_rate with max = 5%,
swapping the two rates whenever the curve is inverted. -/
theorem c4_bug :
    get_free_rate c4Row 1 2 = Except.ok (5/100, 3/100) ∧
    (prepare_data2calc c4Opt c4Shibor).map
      (fun l => l.map (fun q => (q.nearRate, q.nextRate, q.nearMaturity, q.nextMaturity))) =
      Except.ok [(3/100, 5/100, 1, 2), (3/100, 5/100, 1, 2)] ∧
    (3 : ℚ)/100 ≠ 5/100 := by
  have h365 : pyRound (365 : ℚ) = 365 := by
    apply pyRound_eq_floor <;> norm_num
  have h730 : pyRound (730 : ℚ) = 730 := by
    apply pyRound_eq_floor <;> norm_num
  refine ⟨?_, ?_, by norm_num⟩
  · norm_num [get_free_rate, h365, h730, lookupRate, List.find?, min_def, max_def]
  · norm_num [prepare_data2calc, datesOf, mapExcept, c4Opt, c4Shibor, c4Row,
      get_near_or_next_options, survivors, sortedMaturities, List.dedup,
      List.filter, lookupShiborRow, lookupRate, List.find?, get_free_rate,
      listMin, listMax, min_def, max_def, h365, h730, List.get?, Except.map]

/-! ## Claim C1: the next entries of the get_daily_vix dictionaries -/

/-- One day's enriched quote table: near maturity 1 (rate 0), next
maturity 2 (rate 0), with calls and puts at the two strikes 1 and 2 in
each term, so that each term's median table has two strikes and the whole
pipeline runs without raising. -/
def c1Df : List Quote :=
  [⟨1, 5, ContractType.call, 1, 1, 1, 2, 0, 0⟩,
   ⟨1, 3, ContractType.put, 1, 1, 1, 2, 0, 0⟩,
   ⟨1, 4, ContractType.call, 2, 1, 1, 2, 0, 0⟩,
   ⟨1, 3, ContractType.put, 2, 1, 1, 2, 0, 0⟩,
   ⟨1, 7, ContractType.call, 1, 2, 1, 2, 0, 0⟩,
   ⟨1, 5, ContractType.put, 1, 2, 1, 2, 0, 0⟩,
   ⟨1, 6, ContractType.call, 2, 2, 1, 2, 0, 0⟩,
   ⟨1, 5, ContractType.put, 2, 2, 1, 2, 0, 0⟩]

set_option maxHeartbeats 1600000 in
/-- Claim C1 is violated: every next entry of the get_daily_vix
dictionaries is read from the near-term _get_sigma result (the universally
quantified conjunct), so on c1Df the next entries of the term and
median_table dictionaries are the near-term 1 and [(1, 3), (2, 7/2)],
while _get_sigma on the next-term quotes returns term 2 and median table
[(1, 5), (2, 11/2)]. -/
theorem c1_bug :
    ((get_daily_vix c1Df).map (fun r =>
      (r.term.near, r.term.next, r.median_table.near, r.median_table.next))) =
      some (1, 1, [(1, 3), (2, 7/2)], [(1, 3), (2, 7/2)]) ∧
    ((get_sigma (c1Df.filter (fun q => q.maturity = q.nextMaturity)) Method.next).map
      (fun v => (v.term, v.medianTable))) = some (2, [(1, 5), (2, 11/2)]) ∧
    (1 : ℚ) ≠ 2 ∧ ([(1, 3), (2, 7/2)] : List (ℚ × ℚ)) ≠ [(1, 5), (2, 11/2)] ∧
    (∀ df : List Quote, (get_daily_vix df).elim True (fun r =>
      r.strike_matrix.next = r.strike_matrix.near ∧ r.F.next = r.F.near ∧
      r.K.next = r.K.near ∧ r.median_table.next = r.median_table.near ∧
      r.delta_k.next = r.delta_k.near ∧ r.sigma.next = r.sigma.near ∧
      r.rate.next = r.rate.near ∧ r.term.next = r.term.near)) := by
  have dpc : decide (ContractType.put = ContractType.call) = false := rfl
  have dcp : decide (ContractType.call = ContractType.put) = false := rfl
  have dcc : decide (ContractType.call = ContractType.call) = true := rfl
  have dpp : decide (ContractType.put = ContractType.put) = true := rfl
  refine ⟨?_, ?_, by norm_num, by norm_num, ?_⟩
  · norm_num [get_daily_vix, get_sigma, c1Df, List.filter, build_strike_matrix,
      Quote.toRaw, List.dedup, meanQ, get_min_strike_diff, firstMinBy, Option.map,
      calc_F, Real.exp_zero, get_median_price_tableR, sortPairs,
      calc_delta_k_table, dpc, dcp, dcc, dpp]
  · norm_num [get_sigma, c1Df, List.filter, build_strike_matrix,
      Quote.toRaw, List.dedup, meanQ, get_min_strike_diff, firstMinBy, Option.map,
      calc_F, Real.exp_zero, get_median_price_tableR, sortPairs,
      calc_delta_k_table, dpc, dcp, dcc, dpp]
  · intro df
    cases h1 : get_sigma (df.filter (fun q => q.maturity = q.nearMaturity)) Method.near with
    | none => simp [get_daily_vix, h1]
    | some nearV =>
      cases h2 : get_sigma (df.filter (fun q => q.maturity = q.nextMaturity)) Method.next with
      | none => simp [get_daily_vix, h1, h2]
      | some nextV => simp [get_daily_vix, h1, h2]

end VixCalc
